import Mathlib

/-!
Verification of the multi-project LSIF orchestration core
(`src/main.ts`, `src/emitter.ts` of `lsif-tsc`).

The TypeScript sources are shallowly embedded below.  External
collaborators (the `typescript-lsif` compiler services `ts.sys`,
`ts.readConfigFile`, `ts.parseJsonConfigFileContent`, the Node `path`
and `child_process` modules, and the graph-construction visitor) are
represented either as explicit parameters or, where the repository file
defining them is not among the given sources, as definitions modelled
from the specification and marked as such in their doc comments.
-/

/-! ## Identifier generator (`createIdGenerator`, main.ts lines 82-87) -/

/-- The mutable state captured by the closure returned by
`createIdGenerator`: the field `counter` of `main.ts` line 83. -/
structure IdGenState where
  counter : Nat
deriving Repr, DecidableEq

/-- `createIdGenerator(options)` initialises `let counter = 1`
(main.ts line 83; the `options` argument is unread). -/
def createIdGenerator : IdGenState := ⟨1⟩

/-- One call of the generator closure: `return counter++` (main.ts
line 85) — the current counter is returned and then incremented. -/
def nextId (s : IdGenState) : Nat × IdGenState :=
  (s.counter, ⟨s.counter + 1⟩)

/-- `n` successive calls of the generator closure, returning the drawn
identifiers in call order together with the final generator state. -/
def idSeq : Nat → IdGenState → List Nat × IdGenState
  | 0, g => ([], g)
  | n + 1, g =>
    let first := nextId g
    let rest := idSeq n first.2
    (first.1 :: rest.1, rest.2)

/-! ## JSON values and compact serialization

`emitter.ts` serializes each element with `JSON.stringify(element,
undefined, 0)`.  `JSON.stringify` is a JavaScript builtin; with
replacer `undefined` and space `0` it produces the compact (no
pretty-printing) serialization modelled here. -/

mutual
inductive Json : Type where
  | null : Json
  | bool : Bool → Json
  | num : Int → Json
  | str : String → Json
  | arr : JsonArr → Json
  | obj : JsonObj → Json

inductive JsonArr : Type where
  | nil : JsonArr
  | cons : Json → JsonArr → JsonArr

inductive JsonObj : Type where
  | onil : JsonObj
  | ocons : String → Json → JsonObj → JsonObj
end

/-- JSON string escaping of a single character, as performed by
`JSON.stringify` for the characters relevant here. -/
def escapeChar (c : Char) : String :=
  if c = '"' then "\\\""
  else if c = '\\' then "\\\\"
  else if c = '\n' then "\\n"
  else if c = '\r' then "\\r"
  else if c = '\t' then "\\t"
  else String.singleton c

/-- JSON string escaping. -/
def escape (s : String) : String :=
  String.join (s.toList.map escapeChar)

mutual
/-- Compact JSON serialization: `JSON.stringify(x, undefined, 0)` —
no indentation, no pretty-printing. -/
def Json.compact : Json → String
  | .null => "null"
  | .bool b => if b then "true" else "false"
  | .num n => toString n
  | .str s => "\"" ++ escape s ++ "\""
  | .arr items => "[" ++ JsonArr.compactItems items ++ "]"
  | .obj fields => "\x7b" ++ JsonObj.compactFields fields ++ "\x7d"

def JsonArr.compactItems : JsonArr → String
  | .nil => ""
  | .cons j .nil => Json.compact j
  | .cons j rest => Json.compact j ++ "," ++ JsonArr.compactItems rest

def JsonObj.compactFields : JsonObj → String
  | .onil => ""
  | .ocons k v .onil => "\"" ++ escape k ++ "\":" ++ Json.compact v
  | .ocons k v rest =>
    "\"" ++ escape k ++ "\":" ++ Json.compact v ++ "," ++ JsonObj.compactFields rest
end

/-! ## Streaming emitter (`emitter.ts`) -/

/-- The output sink behind the `Writer` interface: `writeln` appends
one line of text.  (The low-level `FileWriter` is an external
collaborator; its observable behaviour is the ordered list of lines
written to it.) -/
structure FileWriter where
  lines : List String
deriving Repr, DecidableEq

/-- `writer.writeln(s)`: appends exactly one line to the sink. -/
def FileWriter.writeln (w : FileWriter) (s : String) : FileWriter :=
  ⟨w.lines ++ [s]⟩

/-- The `emit` operation of the emitter built by `create` in
`emitter.ts`: `writer.writeln(JSON.stringify(element, undefined, 0))`. -/
def emit (w : FileWriter) (element : Json) : FileWriter :=
  w.writeln (Json.compact element)

/-- A sequence of `emit` calls, in call order. -/
def emitAll (w : FileWriter) : List Json → FileWriter
  | [] => w
  | e :: es => emitAll (emit w e) es

/-! ## Script snapshot cache (`getScriptSnapshot`, main.ts lines 149-163)

`ts.ScriptSnapshot.fromString(content)` wraps a string into an
immutable snapshot; a snapshot is observably its content, so snapshots
are modelled as their content strings.  The `scriptSnapshots : Map` is
modelled as an association list with first-match lookup. -/

/-- The parts of `ts.sys` (an external collaborator) that
`getScriptSnapshot` consults.  Each call of the host operation receives
the file system as it is at that moment, which lets a file change on
disk between two calls. -/
structure TsSys where
  fileExists : String → Bool
  readFile : String → Option String

/-- `Map.get`, modelled on an association list. -/
def mapGet : List (String × String) → String → Option String
  | [], _ => none
  | (k, v) :: rest, key => if k = key then some v else mapGet rest key

/-- `Map.set`, modelled on an association list (first match wins, so
prepending implements overwrite). -/
def mapSet (m : List (String × String)) (k v : String) : List (String × String) :=
  (k, v) :: m

/-- `getScriptSnapshot` of the language-service host (main.ts lines
149-163): return the cached snapshot if present; otherwise check
existence, read the content, cache it and return it; return `none`
(not a fault) if the file does not exist or cannot be read — in those
two branches nothing is cached. -/
def getScriptSnapshot (sys : TsSys) (scriptSnapshots : List (String × String))
    (fileName : String) : Option String × List (String × String) :=
  match mapGet scriptSnapshots fileName with
  | some result => (some result, scriptSnapshots)
  | none =>
    if sys.fileExists fileName = false then
      (none, scriptSnapshots)
    else
      match sys.readFile fileName with
      | none => (none, scriptSnapshots)
      | some content => (some content, mapSet scriptSnapshots fileName content)

/-! ## Configuration loading (`loadConfigFile`, main.ts lines 64-80) -/

/-- Compiler options, observed as an association list of settings
(looked up with `mapGet`), plus the `project` option that
`processProject` reads (`config.options.project`). -/
structure CompilerOptions where
  project : Option String
  settings : List (String × String)
deriving Repr, DecidableEq

/-- `ts.ParsedCommandLine`: the fully expanded configuration — compiler
options, input file names and parse diagnostics.  (Project references
are carried separately by the project-tree model below, because the
source reads them back only through the bound program.) -/
structure ParsedCommandLine where
  options : CompilerOptions
  fileNames : List String
  errors : List String
deriving Repr, DecidableEq

/-- The raw JSON of a `tsconfig` file as returned by
`ts.readConfigFile`: the `compilerOptions` member is absent when the
file declares no such section. -/
structure ConfigJson where
  compilerOptions : Option (List (String × String))
deriving Repr, DecidableEq

/-- `Object.assign(target, source)` observed through property lookup:
keys of `source` override keys of `target`.  With first-match `mapGet`
this is prepending `source`. -/
def objectAssign (target source : List (String × String)) : List (String × String) :=
  source ++ target

/-- `loadConfigFile` (main.ts lines 64-80).  The external collaborators
are passed in: `getDefaultCompilerOptions` stands for
`tss.getDefaultCompilerOptions(file)` (defined in `typescripts.ts`,
outside the given sources; the spec calls them the forced default
compiler options), `readConfigFile` for the outcome of
`ts.readConfigFile` on the file, and `parseJsonConfigFileContent` for
`ts.parseJsonConfigFileContent`.  Thrown errors are modelled as
`Except.error`.  The forced defaults are merged into
`config.compilerOptions` only under the source guard
`config.compilerOptions !== undefined`. -/
def loadConfigFile (getDefaultCompilerOptions : List (String × String))
    (readConfigFile : Except String ConfigJson)
    (parseJsonConfigFileContent : ConfigJson → ParsedCommandLine) :
    Except String ParsedCommandLine :=
  match readConfigFile with
  | .error e => .error e
  | .ok config =>
    let merged : ConfigJson :=
      match config.compilerOptions with
      | some co => ⟨some (objectAssign co getDefaultCompilerOptions)⟩
      | none => config
    let result := parseJsonConfigFileContent merged
    if result.errors.length > 0 then
      .error "configuration parse errors"
    else
      .ok result

/-! ## Path handling

Models of the Node `path` module operations used by `processProject`,
restricted to the behaviour the claims depend on (no `..`/`.`
normalization): a path is absolute when it starts with `/`. -/

def isAbsolute (p : String) : Bool :=
  match p.data with
  | [] => false
  | c :: _ => c = '/'

/-- `path.join(a, b)`. -/
def pathJoin (a b : String) : String := a ++ "/" ++ b

/-- `path.resolve(p)` against the current working directory. -/
def pathResolve (cwd p : String) : String :=
  if isAbsolute p then p else pathJoin cwd p

/-! ## Process environment -/

/-- The process environment `processProject` reads: `process.cwd()`,
the trimmed output of `execSync('git rev-parse --show-toplevel')`, and
the `ts.sys.directoryExists` / `ts.sys.fileExists` queries. -/
structure SysEnv where
  cwd : String
  gitToplevel : String
  directoryExists : String → Bool
  fileExists : String → Bool

/-- Modelled from the spec: `tss.makeAbsolute` (defined in
`typescripts.ts`, outside the given sources).  The spec says the roots
are "normalized to absolute form": an already absolute path is kept,
a relative one is resolved against the current working directory. -/
def makeAbsolute (env : SysEnv) (p : String) : String :=
  if isAbsolute p then p else pathJoin env.cwd p

/-- The two `Options` fields that `processProject` mutates (main.ts
lines 112-120); the remaining CLI options do not participate in the
modelled control flow. -/
structure Options where
  projectRoot : Option String
  repositoryRoot : Option String
deriving Repr, DecidableEq

/-- The shared mutable run state threaded through `processProject`:
the (shared, mutated) `options` object, the shared identifier
generator, `process.exitCode`, the number of invocations of the
version-control tool (`execSync('git rev-parse --show-toplevel')`),
and the `console.error` log. -/
structure PState where
  options : Options
  gen : IdGenState
  exitCode : Option Int
  gitCalls : Nat
  log : List String

/-- Main.ts lines 112-120: fill in `options.projectRoot` (defaulting to
`process.cwd()`) and `options.repositoryRoot` (defaulting to the
version-control top-level directory, obtained by one `execSync` call),
then normalize both with `tss.makeAbsolute`. -/
def fillRoots (env : SysEnv) (opts : Options) (gitCalls : Nat) : Options × Nat :=
  let pr :=
    match opts.projectRoot with
    | none => env.cwd
    | some r => r
  let pr := makeAbsolute env pr
  let rrCalls :=
    match opts.repositoryRoot with
    | none => (env.gitToplevel, gitCalls + 1)
    | some r => (r, gitCalls)
  let rr := makeAbsolute env rrCalls.1
  (⟨some pr, some rr⟩, rrCalls.2)

/-- The tsconfig file name resolved from an explicit `--project` path
(main.ts lines 92-97): resolve the path; if it is a directory the
configuration file is `<path>/tsconfig.json`, otherwise the path
itself. -/
def tsconfigName (env : SysEnv) (project : String) : String :=
  let projectPath := pathResolve env.cwd project
  if env.directoryExists projectPath then pathJoin projectPath "tsconfig.json"
  else projectPath

/-! ## ProjectInfo and the visitor -/

/-- Modelled from the spec: `ProjectInfo` (defined in `lsif.ts`,
outside the given sources) identifies one analyzed compilation unit —
a stable identifier assigned by the identifier generator, the path of
its configuration file (absent for the synthetic root invocation), and
the ordered `dependsOn` list of the `ProjectInfo` of the projects it
depends on. -/
inductive ProjectInfo : Type where
  | mk (id : Nat) (tsconfigFileName : Option String) (dependsOn : List ProjectInfo)

/-- The identifier of a `ProjectInfo`. -/
def ProjectInfo.id : ProjectInfo → Nat
  | .mk i _ _ => i

/-- The `dependsOn` list of a `ProjectInfo`. -/
def ProjectInfo.dependsOn : ProjectInfo → List ProjectInfo
  | .mk _ _ d => d

/-- Modelled from the spec: the graph-construction visitor `lsif`
(defined in `lsif.ts`, outside the given sources).  Per the spec it
draws identifiers for the elements it emits from the shared generator
and returns either this project's own `ProjectInfo`, whose identifier
is freshly drawn from the same shared generator, or none when it
judges the project unanalyzable.  Its behaviour for one project is
abstracted by the number `draws` of element identifiers it draws and
the success flag `ok`; the identifiers it drew are returned so that
emission order can be related to generation order. -/
def lsifVisit (draws : Nat) (ok : Bool) (dependsOn : List ProjectInfo)
    (tsconfigFileName : Option String) (g : IdGenState) :
    Option ProjectInfo × IdGenState × List Nat :=
  let s := idSeq draws g
  if ok then
    let n := nextId s.2
    (some (.mk n.1 tsconfigFileName dependsOn), n.2, s.1 ++ [n.1])
  else
    (none, s.2, s.1)

/-! ## The project tree

One `processProject` invocation is determined by its configuration and
by what the external resolution engine does for it: whether
`languageService.getProgram()` produces a program, the
`program.getResolvedProjectReferences()` array (which can be undefined
as a whole, and whose entries can individually be undefined), and the
behaviour of the visitor for this project.  These observations form a
finite tree. -/

mutual
/-- One project as `processProject` observes it: its
`ts.ParsedCommandLine`, whether the engine produced a program, its
resolved project references, and the visitor's behaviour for it (how
many element identifiers it draws, and whether it returns a
`ProjectInfo`). -/
inductive ProjNode : Type where
  | mk : ParsedCommandLine → Bool → Refs → Nat → Bool → ProjNode

/-- `program.getResolvedProjectReferences()` returns
`(ResolvedProjectReference | undefined)[] | undefined`: either
undefined as a whole, or a list of entries. -/
inductive Refs : Type where
  | undef : Refs
  | defined : RefList → Refs

/-- The entries of the resolved-references array, in declared order;
an entry is either `undefined` (skipped by the `if (reference)` guard
of main.ts line 189) or a resolved reference whose `commandLine` and
engine behaviour form a child project node. -/
inductive RefList : Type where
  | nil : RefList
  | consUndef : RefList → RefList
  | consRef : ProjNode → RefList → RefList
end

/-- The result of one `processProject` call: the returned
`ProjectInfo | undefined`, the run state after the call, the
identifiers drawn during the recursive processing of the resolved
references (`depDraws`), and the identifiers drawn by this project's
own visitor invocation (`ownDraws`). -/
structure ProcOut where
  info : Option ProjectInfo
  st : PState
  depDraws : List Nat
  ownDraws : List Nat

/-- The result of the reference-processing loop (main.ts lines
185-196): the collected `dependsOn` list, the run state after the
loop, and all identifiers drawn during the loop. -/
structure RefsOut where
  dependsOn : List ProjectInfo
  st : PState
  draws : List Nat

mutual
/-- `processProject` (main.ts lines 89-200).  The external
collaborators are parameters: `env` for the process/file-system
environment and `load` for `loadConfigFile` applied to a path (with
`ts.sys` and the forced defaults fixed for the run).  Steps, in source
order: resolve an explicit `config.options.project` path to a
configuration file and abort with exit code 1 if it does not exist,
reloading the configuration otherwise; abort with exit code 1 when
there are no input files; fill in and normalize
`options.projectRoot` / `options.repositoryRoot` on the shared options
object; abort with exit code -1 when the engine yields no program;
recursively process the resolved project references, collecting their
`ProjectInfo` into `dependsOn`; finally invoke the visitor with the
shared generator.  (The typings-installation step and the
`console.error` text of line 181 have no effect on the modelled
state beyond the log; the log keeps the source's messages.) -/
def processProject (env : SysEnv) (load : String → ParsedCommandLine)
    (node : ProjNode) (st : PState) : ProcOut :=
  match node with
  | .mk config programOk references visitorDraws visitorOk =>
    let resolved : Option (Option String × ParsedCommandLine) :=
      match config.options.project with
      | some p =>
        let tsconfigFileName := tsconfigName env p
        if env.fileExists tsconfigFileName then
          some (some tsconfigFileName, load tsconfigFileName)
        else none
      | none => some (none, config)
    match resolved with
    | none =>
      let name :=
        match config.options.project with
        | some p => tsconfigName env p
        | none => ""
      let stE : PState :=
        { st with exitCode := some 1,
                  log := st.log ++ ["Project configuration file " ++ name ++ " does not exist"] }
      ⟨none, stE, [], []⟩
    | some pair =>
      let tsconfigFileName := pair.1
      let config := pair.2
      if config.fileNames = [] then
        let stE : PState :=
          { st with exitCode := some 1, log := st.log ++ ["No input files specified."] }
        ⟨none, stE, [], []⟩
      else
        let filled := fillRoots env st.options st.gitCalls
        let st1 : PState := { st with options := filled.1, gitCalls := filled.2 }
        if programOk = false then
          let stE : PState :=
            { st1 with exitCode := some (-1),
                       log := st1.log ++ ["Could not create language service with underlying program."] }
          ⟨none, stE, [], []⟩
        else
          let refsOut : RefsOut :=
            match references with
            | .undef => ⟨[], st1, []⟩
            | .defined rl => processRefs env load rl st1
          let v := lsifVisit visitorDraws visitorOk refsOut.dependsOn tsconfigFileName refsOut.st.gen
          ⟨v.1, { refsOut.st with gen := v.2.1 }, refsOut.draws, v.2.2⟩

/-- The reference loop of main.ts lines 185-196: entries are processed
strictly in declared order; an `undefined` entry is skipped; a
reference is processed by a recursive `processProject` call with the
shared state, and its `ProjectInfo` is appended to `dependsOn` exactly
when that call produced one. -/
def processRefs (env : SysEnv) (load : String → ParsedCommandLine)
    (rl : RefList) (st : PState) : RefsOut :=
  match rl with
  | .nil => ⟨[], st, []⟩
  | .consUndef rest => processRefs env load rest st
  | .consRef n rest =>
    let out := processProject env load n st
    let tail := processRefs env load rest out.st
    match out.info with
    | some info =>
      ⟨info :: tail.dependsOn, tail.st, out.depDraws ++ out.ownDraws ++ tail.draws⟩
    | none =>
      ⟨tail.dependsOn, tail.st, out.depDraws ++ out.ownDraws ++ tail.draws⟩
end

/-- Following the spec's words (for comparison with `processRefs`):
"For each [resolved reference], recursively invoke this same algorithm
…, collecting the successfully-produced ProjectInfo of each" — the
per-declared-entry outcomes of the recursive analyses, in declared
order, `none` standing for an undefined entry or a failed analysis. -/
def refOutcomes (env : SysEnv) (load : String → ParsedCommandLine) :
    RefList → PState → List (Option ProjectInfo) × PState
  | .nil, st => ([], st)
  | .consUndef rest, st =>
    let tail := refOutcomes env load rest st
    (none :: tail.1, tail.2)
  | .consRef n rest, st =>
    let out := processProject env load n st
    let tail := refOutcomes env load rest out.st
    (out.info :: tail.1, tail.2)


/-- An aborting `processProject` outcome: no `ProjectInfo`, the exit
code set, the error reported to the log, nothing drawn or emitted. -/
def abortOut (st : PState) (code : Int) (msg : String) : ProcOut :=
  ⟨none, { st with exitCode := some code, log := st.log ++ [msg] }, [], []⟩

/-- The run state after the root-filling step (main.ts lines 112-120). -/
def fillState (env : SysEnv) (st : PState) : PState :=
  { st with options := (fillRoots env st.options st.gitCalls).1,
            gitCalls := (fillRoots env st.options st.gitCalls).2 }

/-- The reference-loop result used by the success path: empty when the
engine reported no resolved references. -/
def refsOutOf (env : SysEnv) (load : String → ParsedCommandLine)
    (references : Refs) (st1 : PState) : RefsOut :=
  match references with
  | .undef => ⟨[], st1, []⟩
  | .defined rl => processRefs env load rl st1

/-- The success-path tail of `processProject` (steps 3-8). -/
def mainStep (env : SysEnv) (load : String → ParsedCommandLine)
    (tsn : Option String) (references : Refs)
    (visitorDraws : Nat) (visitorOk : Bool) (st : PState) : ProcOut :=
  let st1 := fillState env st
  let refsOut : RefsOut :=
    match references with
    | .undef => ⟨[], st1, []⟩
    | .defined rl => processRefs env load rl st1
  let v := lsifVisit visitorDraws visitorOk refsOut.dependsOn tsn refsOut.st.gen
  ⟨v.1, { refsOut.st with gen := v.2.1 }, refsOut.draws, v.2.2⟩

/-- Both option roots are present and absolute. -/
def rootsAbsolute (o : Options) : Bool :=
  (match o.projectRoot with
   | some r => isAbsolute r
   | none => false) &&
  (match o.repositoryRoot with
   | some r => isAbsolute r
   | none => false)

/-- Bound on future version-control invocations: the invocations so far
plus one exactly when `repositoryRoot` is still unset. -/
def pot (st : PState) : Nat :=
  st.gitCalls + (if st.options.repositoryRoot = none then 1 else 0)

/-! ## Concrete instances used by the witnesses -/

/-- A concrete environment: absolute roots, no directories, every file
exists. -/
def exEnv : SysEnv := ⟨"/cwd", "/repo", fun _ => false, fun _ => true⟩

/-- A concrete environment in which no file exists. -/
def exEnvNoFile : SysEnv := ⟨"/cwd", "/repo", fun _ => false, fun _ => false⟩

/-- A concrete configuration loader. -/
def exLoad : String → ParsedCommandLine := fun _ => ⟨⟨none, []⟩, ["x.ts"], []⟩

/-- A child project that analyzes successfully, drawing one element
identifier. -/
def exChild : ProjNode := .mk ⟨⟨none, []⟩, ["b.ts"], []⟩ true .undef 1 true

/-- A child project with no input files, whose analysis therefore
fails. -/
def exChildBad : ProjNode := .mk ⟨⟨none, []⟩, [], []⟩ true .undef 0 true

/-- A parent project with one successful reference. -/
def exParent : ProjNode :=
  .mk ⟨⟨none, []⟩, ["a.ts"], []⟩ true (.defined (.consRef exChild .nil)) 1 true

/-- A parent project whose references are: a failing child, an
undefined entry, and a successful child. -/
def exParentMixed : ProjNode :=
  .mk ⟨⟨none, []⟩, ["a.ts"], []⟩ true
    (.defined (.consRef exChildBad (.consUndef (.consRef exChild .nil)))) 1 true

/-- A project that names an explicit project path. -/
def exProjNode : ProjNode := .mk ⟨⟨some "proj", []⟩, [], []⟩ true .undef 0 true

/-- The initial run state: unset roots, fresh generator, no exit code,
no git invocations, empty log. -/
def exSt : PState := ⟨⟨none, none⟩, createIdGenerator, none, 0, []⟩

/-- A run state whose roots are already filled and absolute. -/
def exStAbs : PState := ⟨⟨some "/cwd", some "/repo"⟩, createIdGenerator, none, 0, []⟩

/-- A file system in which every file exists with content "v1". -/
def exSys1 : TsSys := ⟨fun _ => true, fun _ => some "v1"⟩

/-- The same file system after every file changed on disk to "v2". -/
def exSys2 : TsSys := ⟨fun _ => true, fun _ => some "v2"⟩

/-- A file system in which no file exists. -/
def exSysAbsent : TsSys := ⟨fun _ => false, fun _ => none⟩

/-! ## Branch characterizations of `processProject`

`processProject` is compiled by well-founded recursion, so its
behaviour is captured once per branch by the lemmas below (via
`processProject.eq_def`) and everything else builds on them. -/

theorem processProject_missing_config (env : SysEnv) (load : String → ParsedCommandLine)
    (config : ParsedCommandLine) (pOk : Bool) (refs : Refs) (d : Nat) (ok : Bool)
    (st : PState) (p : String)
    (h1 : config.options.project = some p)
    (h2 : env.fileExists (tsconfigName env p) = false) :
    processProject env load (.mk config pOk refs d ok) st =
      abortOut st 1 ("Project configuration file " ++ tsconfigName env p ++ " does not exist") := by
  rw [processProject.eq_def]
  simp [h1, h2, abortOut]

theorem processProject_no_files_inline (env : SysEnv) (load : String → ParsedCommandLine)
    (config : ParsedCommandLine) (pOk : Bool) (refs : Refs) (d : Nat) (ok : Bool)
    (st : PState)
    (h1 : config.options.project = none)
    (h2 : config.fileNames = []) :
    processProject env load (.mk config pOk refs d ok) st =
      abortOut st 1 "No input files specified." := by
  rw [processProject.eq_def]
  simp [h1, h2, abortOut]

theorem processProject_no_files_loaded (env : SysEnv) (load : String → ParsedCommandLine)
    (config : ParsedCommandLine) (pOk : Bool) (refs : Refs) (d : Nat) (ok : Bool)
    (st : PState) (p : String)
    (h1 : config.options.project = some p)
    (h2 : env.fileExists (tsconfigName env p) = true)
    (h3 : (load (tsconfigName env p)).fileNames = []) :
    processProject env load (.mk config pOk refs d ok) st =
      abortOut st 1 "No input files specified." := by
  rw [processProject.eq_def]
  simp [h1, h2, h3, abortOut]

theorem processProject_no_program_inline (env : SysEnv) (load : String → ParsedCommandLine)
    (config : ParsedCommandLine) (refs : Refs) (d : Nat) (ok : Bool)
    (st : PState)
    (h1 : config.options.project = none)
    (h2 : config.fileNames ≠ []) :
    processProject env load (.mk config false refs d ok) st =
      abortOut (fillState env st) (-1)
        "Could not create language service with underlying program." := by
  rw [processProject.eq_def]
  simp [h1, h2, abortOut, fillState]

theorem processProject_no_program_loaded (env : SysEnv) (load : String → ParsedCommandLine)
    (config : ParsedCommandLine) (refs : Refs) (d : Nat) (ok : Bool)
    (st : PState) (p : String)
    (h1 : config.options.project = some p)
    (h2 : env.fileExists (tsconfigName env p) = true)
    (h3 : (load (tsconfigName env p)).fileNames ≠ []) :
    processProject env load (.mk config false refs d ok) st =
      abortOut (fillState env st) (-1)
        "Could not create language service with underlying program." := by
  rw [processProject.eq_def]
  simp [h1, h2, h3, abortOut, fillState]

theorem processProject_main_inline (env : SysEnv) (load : String → ParsedCommandLine)
    (config : ParsedCommandLine) (refs : Refs) (d : Nat) (ok : Bool)
    (st : PState)
    (h1 : config.options.project = none)
    (h2 : config.fileNames ≠ []) :
    processProject env load (.mk config true refs d ok) st =
      mainStep env load none refs d ok st := by
  rw [processProject.eq_def]
  simp [h1, h2, mainStep, fillState]

theorem processProject_main_loaded (env : SysEnv) (load : String → ParsedCommandLine)
    (config : ParsedCommandLine) (refs : Refs) (d : Nat) (ok : Bool)
    (st : PState) (p : String)
    (h1 : config.options.project = some p)
    (h2 : env.fileExists (tsconfigName env p) = true)
    (h3 : (load (tsconfigName env p)).fileNames ≠ []) :
    processProject env load (.mk config true refs d ok) st =
      mainStep env load (some (tsconfigName env p)) refs d ok st := by
  rw [processProject.eq_def]
  simp [h1, h2, h3, mainStep, fillState]

theorem processRefs_nil (env : SysEnv) (load : String → ParsedCommandLine) (st : PState) :
    processRefs env load .nil st = ⟨[], st, []⟩ := by
  rw [processRefs.eq_def]

theorem processRefs_consUndef (env : SysEnv) (load : String → ParsedCommandLine)
    (rest : RefList) (st : PState) :
    processRefs env load (.consUndef rest) st = processRefs env load rest st := by
  rw [processRefs.eq_def]

theorem processRefs_consRef (env : SysEnv) (load : String → ParsedCommandLine)
    (n : ProjNode) (rest : RefList) (st : PState) :
    processRefs env load (.consRef n rest) st =
      (let out := processProject env load n st
       let tail := processRefs env load rest out.st
       match out.info with
       | some info =>
         ⟨info :: tail.dependsOn, tail.st, out.depDraws ++ out.ownDraws ++ tail.draws⟩
       | none =>
         ⟨tail.dependsOn, tail.st, out.depDraws ++ out.ownDraws ++ tail.draws⟩) := by
  rw [processRefs.eq_def]

/-! ## Generator monotonicity and draw bounds -/

theorem idSeq_eq (n : Nat) : ∀ g : IdGenState,
    idSeq n g = (List.range' g.counter n, ⟨g.counter + n⟩) := by
  induction n with
  | zero => intro g; simp [idSeq]
  | succ n ih =>
    intro g
    simp [idSeq, nextId, ih, List.range'_succ]
    omega

theorem lsifVisit_bounds (d : Nat) (ok : Bool) (dep : List ProjectInfo)
    (cfg : Option String) (g : IdGenState) :
    g.counter ≤ (lsifVisit d ok dep cfg g).2.1.counter ∧
    ∀ y ∈ (lsifVisit d ok dep cfg g).2.2,
      g.counter ≤ y ∧ y < (lsifVisit d ok dep cfg g).2.1.counter := by
  cases ok <;>
    simp only [lsifVisit, idSeq_eq, nextId, Bool.false_eq_true, if_false, if_true,
      reduceIte] <;>
    refine ⟨by omega, ?_⟩ <;>
    intro y hy <;>
    simp only [List.mem_append, List.mem_range'_1, List.mem_singleton] at hy <;>
    omega

theorem fillState_gen (env : SysEnv) (st : PState) : (fillState env st).gen = st.gen := rfl

theorem mainStep_eq (env : SysEnv) (load : String → ParsedCommandLine)
    (tsn : Option String) (refs : Refs) (d : Nat) (ok : Bool) (st : PState) :
    mainStep env load tsn refs d ok st =
      ⟨(lsifVisit d ok (refsOutOf env load refs (fillState env st)).dependsOn tsn
          (refsOutOf env load refs (fillState env st)).st.gen).1,
        { (refsOutOf env load refs (fillState env st)).st with
            gen := (lsifVisit d ok (refsOutOf env load refs (fillState env st)).dependsOn tsn
              (refsOutOf env load refs (fillState env st)).st.gen).2.1 },
        (refsOutOf env load refs (fillState env st)).draws,
        (lsifVisit d ok (refsOutOf env load refs (fillState env st)).dependsOn tsn
          (refsOutOf env load refs (fillState env st)).st.gen).2.2⟩ := by
  cases refs <;> rfl

theorem abortOut_bounds (stArg : PState) (c : Int) (m : String) (st : PState)
    (hgen : (abortOut stArg c m).st.gen = st.gen) :
    st.gen.counter ≤ (abortOut stArg c m).st.gen.counter ∧
    (∀ x ∈ (abortOut stArg c m).depDraws,
        st.gen.counter ≤ x ∧ x < (abortOut stArg c m).st.gen.counter) ∧
    (∀ x ∈ (abortOut stArg c m).ownDraws,
        st.gen.counter ≤ x ∧ x < (abortOut stArg c m).st.gen.counter) := by
  refine ⟨by rw [hgen], ?_, ?_⟩ <;> simp [abortOut]

theorem mainStep_bounds (env : SysEnv) (load : String → ParsedCommandLine)
    (tsn : Option String) (refs : Refs) (d : Nat) (ok : Bool) (st : PState)
    (h1 : st.gen.counter ≤ (refsOutOf env load refs (fillState env st)).st.gen.counter)
    (h2 : ∀ x ∈ (refsOutOf env load refs (fillState env st)).draws,
        st.gen.counter ≤ x ∧ x < (refsOutOf env load refs (fillState env st)).st.gen.counter) :
    st.gen.counter ≤ (mainStep env load tsn refs d ok st).st.gen.counter ∧
    (∀ x ∈ (mainStep env load tsn refs d ok st).depDraws,
        st.gen.counter ≤ x ∧ x < (mainStep env load tsn refs d ok st).st.gen.counter) ∧
    (∀ x ∈ (mainStep env load tsn refs d ok st).ownDraws,
        st.gen.counter ≤ x ∧ x < (mainStep env load tsn refs d ok st).st.gen.counter) := by
  rw [mainStep_eq]
  dsimp only
  have hv := lsifVisit_bounds d ok (refsOutOf env load refs (fillState env st)).dependsOn tsn
    (refsOutOf env load refs (fillState env st)).st.gen
  refine ⟨by have := hv.1; omega, ?_, ?_⟩
  · intro x hx
    have := h2 x hx
    have := hv.1
    constructor <;> omega
  · intro y hy
    have := hv.2 y hy
    constructor <;> omega

mutual
theorem processProject_bounds (env : SysEnv) (load : String → ParsedCommandLine)
    (node : ProjNode) (st : PState) :
    st.gen.counter ≤ (processProject env load node st).st.gen.counter ∧
    (∀ x ∈ (processProject env load node st).depDraws,
        st.gen.counter ≤ x ∧ x < (processProject env load node st).st.gen.counter) ∧
    (∀ x ∈ (processProject env load node st).ownDraws,
        st.gen.counter ≤ x ∧ x < (processProject env load node st).st.gen.counter) := by
  cases node with
  | mk config pOk refs d ok =>
    cases h1 : config.options.project with
    | some p =>
      cases h2 : env.fileExists (tsconfigName env p) with
      | false =>
        rw [processProject_missing_config env load config pOk refs d ok st p h1 h2]
        exact abortOut_bounds _ _ _ st rfl
      | true =>
        cases h3 : (load (tsconfigName env p)).fileNames with
        | nil =>
          rw [processProject_no_files_loaded env load config pOk refs d ok st p h1 h2 h3]
          exact abortOut_bounds _ _ _ st rfl
        | cons f fs =>
          have h3' : (load (tsconfigName env p)).fileNames ≠ [] := by rw [h3]; simp
          cases pOk with
          | false =>
            rw [processProject_no_program_loaded env load config refs d ok st p h1 h2 h3']
            exact abortOut_bounds _ _ _ st rfl
          | true =>
            rw [processProject_main_loaded env load config refs d ok st p h1 h2 h3']
            apply mainStep_bounds
            · cases refs with
              | undef => exact le_refl _
              | defined rl =>
                have := (processRefs_bounds env load rl (fillState env st)).1
                simpa [refsOutOf, fillState_gen] using this
            · cases refs with
              | undef => intro x hx; simp [refsOutOf] at hx
              | defined rl =>
                have := (processRefs_bounds env load rl (fillState env st)).2
                simpa [refsOutOf, fillState_gen] using this
    | none =>
      cases h3 : config.fileNames with
      | nil =>
        rw [processProject_no_files_inline env load config pOk refs d ok st h1 h3]
        exact abortOut_bounds _ _ _ st rfl
      | cons f fs =>
        have h3' : config.fileNames ≠ [] := by rw [h3]; simp
        cases pOk with
        | false =>
          rw [processProject_no_program_inline env load config refs d ok st h1 h3']
          exact abortOut_bounds _ _ _ st rfl
        | true =>
          rw [processProject_main_inline env load config refs d ok st h1 h3']
          apply mainStep_bounds
          · cases refs with
            | undef => exact le_refl _
            | defined rl =>
              have := (processRefs_bounds env load rl (fillState env st)).1
              simpa [refsOutOf, fillState_gen] using this
          · cases refs with
            | undef => intro x hx; simp [refsOutOf] at hx
            | defined rl =>
              have := (processRefs_bounds env load rl (fillState env st)).2
              simpa [refsOutOf, fillState_gen] using this

theorem processRefs_bounds (env : SysEnv) (load : String → ParsedCommandLine)
    (rl : RefList) (st : PState) :
    st.gen.counter ≤ (processRefs env load rl st).st.gen.counter ∧
    ∀ x ∈ (processRefs env load rl st).draws,
      st.gen.counter ≤ x ∧ x < (processRefs env load rl st).st.gen.counter := by
  cases rl with
  | nil =>
    rw [processRefs_nil]
    exact ⟨le_refl _, by intro x hx; simp at hx⟩
  | consUndef rest =>
    rw [processRefs_consUndef]
    exact processRefs_bounds env load rest st
  | consRef n rest =>
    rw [processRefs_consRef]
    have hn := processProject_bounds env load n st
    have ht := processRefs_bounds env load rest (processProject env load n st).st
    cases hinfo : (processProject env load n st).info with
    | some info =>
      simp only [hinfo]
      refine ⟨by have := hn.1; have := ht.1; omega, ?_⟩
      intro x hx
      simp only [List.mem_append] at hx
      rcases hx with (hx | hx) | hx
      · have := hn.2.1 x hx; have := ht.1; constructor <;> omega
      · have := hn.2.2 x hx; have := ht.1; constructor <;> omega
      · have := ht.2 x hx; have := hn.1; constructor <;> omega
    | none =>
      simp only [hinfo]
      refine ⟨by have := hn.1; have := ht.1; omega, ?_⟩
      intro x hx
      simp only [List.mem_append] at hx
      rcases hx with (hx | hx) | hx
      · have := hn.2.1 x hx; have := ht.1; constructor <;> omega
      · have := hn.2.2 x hx; have := ht.1; constructor <;> omega
      · have := ht.2 x hx; have := hn.1; constructor <;> omega
end

/-! ## Stability of the options object and the git-invocation bound -/

theorem makeAbsolute_abs (env : SysEnv) (p : String) (h : isAbsolute p = true) :
    makeAbsolute env p = p := by
  simp [makeAbsolute, h]

theorem fillRoots_stable (env : SysEnv) (o : Options) (g : Nat)
    (h : rootsAbsolute o = true) : fillRoots env o g = (o, g) := by
  cases o with
  | mk pr rr =>
    cases pr with
    | none => simp [rootsAbsolute] at h
    | some r =>
      cases rr with
      | none => simp [rootsAbsolute] at h
      | some r2 =>
        simp only [rootsAbsolute, Bool.and_eq_true] at h
        simp [fillRoots, makeAbsolute, h.1, h.2]

theorem fillState_stable (env : SysEnv) (st : PState)
    (h : rootsAbsolute st.options = true) : fillState env st = st := by
  cases st with
  | mk o gen ec gc log =>
    simp [fillState, fillRoots_stable env o gc h]

theorem pot_abortOut (st : PState) (c : Int) (m : String) :
    pot (abortOut st c m).st = pot st := rfl

theorem fillState_pot (env : SysEnv) (st : PState) : pot (fillState env st) ≤ pot st := by
  cases st with
  | mk o gen ec gc log =>
    cases o with
    | mk pr rr =>
      cases rr <;> simp [pot, fillState, fillRoots]

theorem mainStep_stable (env : SysEnv) (load : String → ParsedCommandLine)
    (tsn : Option String) (refs : Refs) (d : Nat) (ok : Bool) (st : PState)
    (hst : fillState env st = st)
    (hrefs : (refsOutOf env load refs st).st.options = st.options ∧
      (refsOutOf env load refs st).st.gitCalls = st.gitCalls) :
    (mainStep env load tsn refs d ok st).st.options = st.options ∧
    (mainStep env load tsn refs d ok st).st.gitCalls = st.gitCalls := by
  rw [mainStep_eq, hst]
  dsimp only
  exact hrefs

theorem mainStep_pot (env : SysEnv) (load : String → ParsedCommandLine)
    (tsn : Option String) (refs : Refs) (d : Nat) (ok : Bool) (st : PState)
    (hrefs : pot (refsOutOf env load refs (fillState env st)).st ≤ pot (fillState env st)) :
    pot (mainStep env load tsn refs d ok st).st ≤ pot st := by
  rw [mainStep_eq]
  have h2 := fillState_pot env st
  have h3 : pot (ProcOut.mk
      (lsifVisit d ok (refsOutOf env load refs (fillState env st)).dependsOn tsn
        (refsOutOf env load refs (fillState env st)).st.gen).1
      { (refsOutOf env load refs (fillState env st)).st with
          gen := (lsifVisit d ok (refsOutOf env load refs (fillState env st)).dependsOn tsn
            (refsOutOf env load refs (fillState env st)).st.gen).2.1 }
      (refsOutOf env load refs (fillState env st)).draws
      (lsifVisit d ok (refsOutOf env load refs (fillState env st)).dependsOn tsn
        (refsOutOf env load refs (fillState env st)).st.gen).2.2).st =
      pot (refsOutOf env load refs (fillState env st)).st := rfl
  rw [h3]
  omega

mutual
theorem processProject_stable (env : SysEnv) (load : String → ParsedCommandLine)
    (node : ProjNode) (st : PState) (h : rootsAbsolute st.options = true) :
    (processProject env load node st).st.options = st.options ∧
    (processProject env load node st).st.gitCalls = st.gitCalls := by
  cases node with
  | mk config pOk refs d ok =>
    cases h1 : config.options.project with
    | some p =>
      cases h2 : env.fileExists (tsconfigName env p) with
      | false =>
        rw [processProject_missing_config env load config pOk refs d ok st p h1 h2]
        exact ⟨rfl, rfl⟩
      | true =>
        cases h3 : (load (tsconfigName env p)).fileNames with
        | nil =>
          rw [processProject_no_files_loaded env load config pOk refs d ok st p h1 h2 h3]
          exact ⟨rfl, rfl⟩
        | cons f fs =>
          have h3' : (load (tsconfigName env p)).fileNames ≠ [] := by rw [h3]; simp
          cases pOk with
          | false =>
            rw [processProject_no_program_loaded env load config refs d ok st p h1 h2 h3',
              fillState_stable env st h]
            exact ⟨rfl, rfl⟩
          | true =>
            rw [processProject_main_loaded env load config refs d ok st p h1 h2 h3']
            refine mainStep_stable env load _ refs d ok st (fillState_stable env st h) ?_
            cases refs with
            | undef => exact ⟨rfl, rfl⟩
            | defined rl => exact processRefs_stable env load rl st h
    | none =>
      cases h3 : config.fileNames with
      | nil =>
        rw [processProject_no_files_inline env load config pOk refs d ok st h1 h3]
        exact ⟨rfl, rfl⟩
      | cons f fs =>
        have h3' : config.fileNames ≠ [] := by rw [h3]; simp
        cases pOk with
        | false =>
          rw [processProject_no_program_inline env load config refs d ok st h1 h3',
            fillState_stable env st h]
          exact ⟨rfl, rfl⟩
        | true =>
          rw [processProject_main_inline env load config refs d ok st h1 h3']
          refine mainStep_stable env load _ refs d ok st (fillState_stable env st h) ?_
          cases refs with
          | undef => exact ⟨rfl, rfl⟩
          | defined rl => exact processRefs_stable env load rl st h

theorem processRefs_stable (env : SysEnv) (load : String → ParsedCommandLine)
    (rl : RefList) (st : PState) (h : rootsAbsolute st.options = true) :
    (processRefs env load rl st).st.options = st.options ∧
    (processRefs env load rl st).st.gitCalls = st.gitCalls := by
  cases rl with
  | nil =>
    rw [processRefs_nil]
    exact ⟨rfl, rfl⟩
  | consUndef rest =>
    rw [processRefs_consUndef]
    exact processRefs_stable env load rest st h
  | consRef n rest =>
    rw [processRefs_consRef]
    have hn := processProject_stable env load n st h
    have h2 : rootsAbsolute (processProject env load n st).st.options = true := by
      rw [hn.1]; exact h
    have ht := processRefs_stable env load rest (processProject env load n st).st h2
    cases hinfo : (processProject env load n st).info with
    | some info =>
      simp only [hinfo]
      exact ⟨by rw [ht.1, hn.1], by rw [ht.2, hn.2]⟩
    | none =>
      simp only [hinfo]
      exact ⟨by rw [ht.1, hn.1], by rw [ht.2, hn.2]⟩
end

mutual
theorem processProject_pot (env : SysEnv) (load : String → ParsedCommandLine)
    (node : ProjNode) (st : PState) :
    pot (processProject env load node st).st ≤ pot st := by
  cases node with
  | mk config pOk refs d ok =>
    cases h1 : config.options.project with
    | some p =>
      cases h2 : env.fileExists (tsconfigName env p) with
      | false =>
        rw [processProject_missing_config env load config pOk refs d ok st p h1 h2,
          pot_abortOut]
      | true =>
        cases h3 : (load (tsconfigName env p)).fileNames with
        | nil =>
          rw [processProject_no_files_loaded env load config pOk refs d ok st p h1 h2 h3,
            pot_abortOut]
        | cons f fs =>
          have h3' : (load (tsconfigName env p)).fileNames ≠ [] := by rw [h3]; simp
          cases pOk with
          | false =>
            rw [processProject_no_program_loaded env load config refs d ok st p h1 h2 h3',
              pot_abortOut]
            exact fillState_pot env st
          | true =>
            rw [processProject_main_loaded env load config refs d ok st p h1 h2 h3']
            refine mainStep_pot env load _ refs d ok st ?_
            cases refs with
            | undef => exact le_refl _
            | defined rl => exact processRefs_pot env load rl (fillState env st)
    | none =>
      cases h3 : config.fileNames with
      | nil =>
        rw [processProject_no_files_inline env load config pOk refs d ok st h1 h3,
          pot_abortOut]
      | cons f fs =>
        have h3' : config.fileNames ≠ [] := by rw [h3]; simp
        cases pOk with
        | false =>
          rw [processProject_no_program_inline env load config refs d ok st h1 h3',
            pot_abortOut]
          exact fillState_pot env st
        | true =>
          rw [processProject_main_inline env load config refs d ok st h1 h3']
          refine mainStep_pot env load _ refs d ok st ?_
          cases refs with
          | undef => exact le_refl _
          | defined rl => exact processRefs_pot env load rl (fillState env st)

theorem processRefs_pot (env : SysEnv) (load : String → ParsedCommandLine)
    (rl : RefList) (st : PState) :
    pot (processRefs env load rl st).st ≤ pot st := by
  cases rl with
  | nil =>
    rw [processRefs_nil]
  | consUndef rest =>
    rw [processRefs_consUndef]
    exact processRefs_pot env load rest st
  | consRef n rest =>
    rw [processRefs_consRef]
    have hn := processProject_pot env load n st
    have ht := processRefs_pot env load rest (processProject env load n st).st
    cases hinfo : (processProject env load n st).info with
    | some info =>
      simp only [hinfo]
      exact le_trans ht hn
    | none =>
      simp only [hinfo]
      exact le_trans ht hn
end

/-! ## Separation of dependency draws from own draws -/

theorem mainStep_dep_lt_own (env : SysEnv) (load : String → ParsedCommandLine)
    (tsn : Option String) (refs : Refs) (d : Nat) (ok : Bool) (st : PState)
    (h2 : ∀ x ∈ (refsOutOf env load refs (fillState env st)).draws,
        x < (refsOutOf env load refs (fillState env st)).st.gen.counter) :
    ∀ x ∈ (mainStep env load tsn refs d ok st).depDraws,
      ∀ y ∈ (mainStep env load tsn refs d ok st).ownDraws, x < y := by
  rw [mainStep_eq]
  dsimp only
  intro x hx y hy
  have hxx := h2 x hx
  have hv := (lsifVisit_bounds d ok (refsOutOf env load refs (fillState env st)).dependsOn tsn
    (refsOutOf env load refs (fillState env st)).st.gen).2 y hy
  omega

/-! ## The dependsOn list is the successful outcomes in declared order -/

theorem refOutcomes_spec (env : SysEnv) (load : String → ParsedCommandLine)
    (rl : RefList) (st : PState) :
    (processRefs env load rl st).dependsOn = ((refOutcomes env load rl st).1).reduceOption ∧
    (processRefs env load rl st).st = (refOutcomes env load rl st).2 := by
  cases rl with
  | nil =>
    rw [processRefs_nil]
    simp [refOutcomes]
  | consUndef rest =>
    rw [processRefs_consUndef]
    have h := refOutcomes_spec env load rest st
    simp only [refOutcomes]
    exact ⟨by rw [h.1]; simp [List.reduceOption_cons_of_none], h.2⟩
  | consRef n rest =>
    rw [processRefs_consRef]
    have h := refOutcomes_spec env load rest (processProject env load n st).st
    cases hinfo : (processProject env load n st).info with
    | some info =>
      simp only [hinfo, refOutcomes]
      exact ⟨by rw [List.reduceOption_cons_of_some, h.1], h.2⟩
    | none =>
      simp only [hinfo, refOutcomes]
      exact ⟨by rw [List.reduceOption_cons_of_none, h.1], h.2⟩

/-! ## Lookup facts for the forced-defaults merge -/

theorem mapGet_append_left (a b : List (String × String)) (k v : String)
    (h : mapGet a k = some v) : mapGet (a ++ b) k = some v := by
  induction a with
  | nil => simp [mapGet] at h
  | cons kv rest ih =>
    cases kv with
    | mk k2 v2 =>
      by_cases hk : k2 = k
      · simp [mapGet, hk] at h ⊢
        exact h
      · simp [mapGet, hk] at h ⊢
        exact ih h

/-! ## The claims -/

/-- C2: the identifier generator created once per run by
`createIdGenerator`, called n times, returns exactly the sequence
1, 2, …, n — successive positive integers starting at 1, with no gaps
and no repeats — and the single shared generator state is threaded
through every recursive `processProject` call: the counter is never
reset, only advanced. -/
theorem claim_c2 :
    (∀ n : Nat, (idSeq n createIdGenerator).1 = List.range' 1 n) ∧
    (∀ (env : SysEnv) (load : String → ParsedCommandLine) (node : ProjNode) (st : PState),
      st.gen.counter ≤ (processProject env load node st).st.gen.counter) := by
  constructor
  · intro n
    rw [idSeq_eq]
    rfl
  · intro env load node st
    exact (processProject_bounds env load node st).1

/-- C4: every `emit` call appends exactly one line — the element's
compact JSON serialization — to the output sink, and the order of the
lines equals the order of the `emit` calls, with no batching or
reordering. -/
theorem claim_c4 (w : FileWriter) (es : List Json) :
    (emitAll w es).lines = w.lines ++ es.map Json.compact := by
  induction es generalizing w with
  | nil => simp [emitAll]
  | cons e es ih => simp [emitAll, ih, emit, FileWriter.writeln]

/-- C5: if a first `getScriptSnapshot` call for file `f` returns a
snapshot, a second call for `f` returns the identical snapshot even if
the file system has changed arbitrarily in between — the cache is
populated on first successful read and never invalidated. -/
theorem claim_c5 (sys1 sys2 : TsSys) (snaps : List (String × String)) (f s : String)
    (h : (getScriptSnapshot sys1 snaps f).1 = some s) :
    (getScriptSnapshot sys2 (getScriptSnapshot sys1 snaps f).2 f).1 = some s := by
  cases hm : mapGet snaps f with
  | some r =>
    have h1 : getScriptSnapshot sys1 snaps f = (some r, snaps) := by
      simp [getScriptSnapshot, hm]
    rw [h1] at h ⊢
    simp at h
    simp [getScriptSnapshot, hm, h]
  | none =>
    cases hfe : sys1.fileExists f with
    | false =>
      have h1 : getScriptSnapshot sys1 snaps f = (none, snaps) := by
        simp [getScriptSnapshot, hm, hfe]
      rw [h1] at h
      simp at h
    | true =>
      cases hr : sys1.readFile f with
      | none =>
        have h1 : getScriptSnapshot sys1 snaps f = (none, snaps) := by
          simp [getScriptSnapshot, hm, hfe, hr]
        rw [h1] at h
        simp at h
      | some content =>
        have h1 : getScriptSnapshot sys1 snaps f =
            (some content, mapSet snaps f content) := by
          simp [getScriptSnapshot, hm, hfe, hr]
        rw [h1] at h ⊢
        simp at h
        simp [getScriptSnapshot, mapSet, mapGet, h]

/-- C5 witness: a file read as "v1" is cached; after the disk content
changes to "v2", the second request still returns "v1". -/
theorem claim_c5_witness :
    (getScriptSnapshot exSys2 (getScriptSnapshot exSys1 [] "a.ts").2 "a.ts").1 =
      some "v1" :=
  claim_c5 exSys1 exSys2 [] "a.ts" "v1" (by decide)

/-- C9: absence is never memoized — a `getScriptSnapshot` call that
returns no snapshot leaves the cache unchanged, and a later call for
the same file re-checks the file system and returns a snapshot once
the file is readable. -/
theorem claim_c9 (sys1 sys2 : TsSys) (snaps : List (String × String)) (f c : String)
    (h : (getScriptSnapshot sys1 snaps f).1 = none)
    (h2 : sys2.fileExists f = true) (h3 : sys2.readFile f = some c) :
    (getScriptSnapshot sys1 snaps f).2 = snaps ∧
    (getScriptSnapshot sys2 (getScriptSnapshot sys1 snaps f).2 f).1 = some c := by
  have hm : mapGet snaps f = none := by
    cases hm : mapGet snaps f with
    | none => rfl
    | some r => simp [getScriptSnapshot, hm] at h
  have hstate : (getScriptSnapshot sys1 snaps f).2 = snaps := by
    cases hfe : sys1.fileExists f with
    | false => simp [getScriptSnapshot, hm, hfe]
    | true =>
      cases hr : sys1.readFile f with
      | none => simp [getScriptSnapshot, hm, hfe, hr]
      | some content => simp [getScriptSnapshot, hm, hfe, hr] at h
  refine ⟨hstate, ?_⟩
  rw [hstate]
  simp [getScriptSnapshot, hm, h2, h3]

/-- C9 witness: a missing file is not cached; once it exists with
content "v2", the next request returns it. -/
theorem claim_c9_witness :
    (getScriptSnapshot exSysAbsent [] "a.ts").2 = [] ∧
    (getScriptSnapshot exSys2 (getScriptSnapshot exSysAbsent [] "a.ts").2 "a.ts").1 =
      some "v2" :=
  claim_c9 exSysAbsent exSys2 [] "a.ts" "v2" (by decide) rfl rfl

/-- C3 counterexample: when the configuration file declares no
`compilerOptions` section, `loadConfigFile` passes the configuration
to the parser unchanged — with a pass-through parser the resulting
settings carry none of the forced default compiler options (here the
forced default "data" ↦ "lsif" is absent from the result), refuting
the claim that the overridden options are always carried. -/
theorem claim_c3_counterexample :
    loadConfigFile [("data", "lsif")] (Except.ok ⟨none⟩)
        (fun c => ⟨⟨none, c.compilerOptions.getD []⟩, ["a.ts"], []⟩) =
      Except.ok ⟨⟨none, []⟩, ["a.ts"], []⟩ ∧
    mapGet [] "data" = none :=
  ⟨rfl, rfl⟩

/-- C3 (amended): `loadConfigFile` merges the forced default compiler
options into the configuration's `compilerOptions` only when the file
declares such a section; when it does, every forced default key is
present in the merged options with the tool's value, overriding
whatever the project author specified, and the merged configuration is
what is handed to the parser. -/
theorem claim_c3 (defaults co : List (String × String)) (k v : String)
    (parse : ConfigJson → ParsedCommandLine)
    (hk : mapGet defaults k = some v) :
    mapGet (objectAssign co defaults) k = some v ∧
    loadConfigFile defaults (Except.ok ⟨some co⟩) parse =
      (if (parse ⟨some (objectAssign co defaults)⟩).errors.length > 0 then
        Except.error "configuration parse errors"
      else Except.ok (parse ⟨some (objectAssign co defaults)⟩)) :=
  ⟨mapGet_append_left defaults co k v hk, rfl⟩

/-- C3 witness: the forced default "data" ↦ "lsif" overrides the
author's value in the merged options. -/
theorem claim_c3_witness :
    mapGet (objectAssign [("data", "author")] [("data", "lsif")]) "data" =
      some "lsif" :=
  (claim_c3 [("data", "lsif")] [("data", "author")] "data" "lsif"
    (fun c => ⟨⟨none, c.compilerOptions.getD []⟩, [], []⟩) (by decide)).1

/-- C6: a configuration naming an explicit project path resolves the
configuration file as `<path>/tsconfig.json` when the resolved path is
a directory and as the path itself otherwise; and when the resolved
configuration file does not exist, `processProject` reports the error,
sets exit code 1, returns no `ProjectInfo`, and draws/emits nothing. -/
theorem claim_c6 (env : SysEnv) (load : String → ParsedCommandLine)
    (config : ParsedCommandLine) (pOk : Bool) (refs : Refs) (d : Nat) (ok : Bool)
    (st : PState) (p : String)
    (h1 : config.options.project = some p)
    (h2 : env.fileExists (tsconfigName env p) = false) :
    (env.directoryExists (pathResolve env.cwd p) = true →
      tsconfigName env p = pathJoin (pathResolve env.cwd p) "tsconfig.json") ∧
    (env.directoryExists (pathResolve env.cwd p) = false →
      tsconfigName env p = pathResolve env.cwd p) ∧
    processProject env load (.mk config pOk refs d ok) st =
      abortOut st 1
        ("Project configuration file " ++ tsconfigName env p ++ " does not exist") ∧
    (processProject env load (.mk config pOk refs d ok) st).info = none ∧
    (processProject env load (.mk config pOk refs d ok) st).st.exitCode = some 1 ∧
    (processProject env load (.mk config pOk refs d ok) st).depDraws = [] ∧
    (processProject env load (.mk config pOk refs d ok) st).ownDraws = [] := by
  have he := processProject_missing_config env load config pOk refs d ok st p h1 h2
  refine ⟨?_, ?_, he, ?_, ?_, ?_, ?_⟩
  · intro hd; simp [tsconfigName, hd]
  · intro hd; simp [tsconfigName, hd]
  · rw [he]; rfl
  · rw [he]; rfl
  · rw [he]; rfl
  · rw [he]; rfl

/-- C6 witness: the explicit project path "proj" resolves (no
directory at its resolution) to the path itself; the file does not
exist, so the project aborts with exit code 1 and nothing drawn. -/
theorem claim_c6_witness :
    (exEnvNoFile.directoryExists (pathResolve exEnvNoFile.cwd "proj") = true →
      tsconfigName exEnvNoFile "proj" =
        pathJoin (pathResolve exEnvNoFile.cwd "proj") "tsconfig.json") ∧
    (exEnvNoFile.directoryExists (pathResolve exEnvNoFile.cwd "proj") = false →
      tsconfigName exEnvNoFile "proj" = pathResolve exEnvNoFile.cwd "proj") ∧
    processProject exEnvNoFile exLoad exProjNode exSt =
      abortOut exSt 1
        ("Project configuration file " ++ tsconfigName exEnvNoFile "proj" ++
          " does not exist") ∧
    (processProject exEnvNoFile exLoad exProjNode exSt).info = none ∧
    (processProject exEnvNoFile exLoad exProjNode exSt).st.exitCode = some 1 ∧
    (processProject exEnvNoFile exLoad exProjNode exSt).depDraws = [] ∧
    (processProject exEnvNoFile exLoad exProjNode exSt).ownDraws = [] :=
  claim_c6 exEnvNoFile exLoad ⟨⟨some "proj", []⟩, [], []⟩ true .undef 0 true exSt
    "proj" rfl rfl

/-- C7: a project whose resolved configuration has zero input files —
whether the configuration was given inline or reloaded from an
explicit project path — aborts with the reported error and exit
code 1, returns no `ProjectInfo`, and draws/emits nothing. -/
theorem claim_c7 (env : SysEnv) (load : String → ParsedCommandLine)
    (config : ParsedCommandLine) (pOk : Bool) (refs : Refs) (d : Nat) (ok : Bool)
    (st : PState)
    (h : (config.options.project = none ∧ config.fileNames = []) ∨
      (∃ p, config.options.project = some p ∧
        env.fileExists (tsconfigName env p) = true ∧
        (load (tsconfigName env p)).fileNames = [])) :
    processProject env load (.mk config pOk refs d ok) st =
      abortOut st 1 "No input files specified." ∧
    (processProject env load (.mk config pOk refs d ok) st).info = none ∧
    (processProject env load (.mk config pOk refs d ok) st).st.exitCode = some 1 ∧
    (processProject env load (.mk config pOk refs d ok) st).depDraws = [] ∧
    (processProject env load (.mk config pOk refs d ok) st).ownDraws = [] := by
  have he : processProject env load (.mk config pOk refs d ok) st =
      abortOut st 1 "No input files specified." := by
    rcases h with ⟨h1, h2⟩ | ⟨p, h1, h2, h3⟩
    · exact processProject_no_files_inline env load config pOk refs d ok st h1 h2
    · exact processProject_no_files_loaded env load config pOk refs d ok st p h1 h2 h3
  refine ⟨he, ?_, ?_, ?_, ?_⟩ <;> rw [he] <;> rfl

/-- C7 witness: a configuration with no project path and no input
files aborts with exit code 1 and nothing drawn. -/
theorem claim_c7_witness :
    processProject exEnv exLoad (.mk ⟨⟨none, []⟩, [], []⟩ true .undef 0 true) exSt =
      abortOut exSt 1 "No input files specified." ∧
    (processProject exEnv exLoad (.mk ⟨⟨none, []⟩, [], []⟩ true .undef 0 true) exSt).info =
      none ∧
    (processProject exEnv exLoad
        (.mk ⟨⟨none, []⟩, [], []⟩ true .undef 0 true) exSt).st.exitCode = some 1 ∧
    (processProject exEnv exLoad
        (.mk ⟨⟨none, []⟩, [], []⟩ true .undef 0 true) exSt).depDraws = [] ∧
    (processProject exEnv exLoad
        (.mk ⟨⟨none, []⟩, [], []⟩ true .undef 0 true) exSt).ownDraws = [] :=
  claim_c7 exEnv exLoad ⟨⟨none, []⟩, [], []⟩ true .undef 0 true exSt
    (Or.inl ⟨rfl, rfl⟩)

/-- C1: for every project node, every identifier drawn during the
recursive processing of its resolved references (its dependencies,
including nested ones) is strictly less than every identifier drawn
while the project itself is visited — the recursion completes before
the visitor runs and all draws come from the one shared counter. -/
theorem claim_c1 (env : SysEnv) (load : String → ParsedCommandLine)
    (node : ProjNode) (st : PState) (x y : Nat)
    (hx : x ∈ (processProject env load node st).depDraws)
    (hy : y ∈ (processProject env load node st).ownDraws) : x < y := by
  cases node with
  | mk config pOk refs d ok =>
    cases h1 : config.options.project with
    | some p =>
      cases h2 : env.fileExists (tsconfigName env p) with
      | false =>
        rw [processProject_missing_config env load config pOk refs d ok st p h1 h2] at hx
        simp [abortOut] at hx
      | true =>
        cases h3 : (load (tsconfigName env p)).fileNames with
        | nil =>
          rw [processProject_no_files_loaded env load config pOk refs d ok st p h1 h2 h3] at hx
          simp [abortOut] at hx
        | cons f fs =>
          have h3' : (load (tsconfigName env p)).fileNames ≠ [] := by rw [h3]; simp
          cases pOk with
          | false =>
            rw [processProject_no_program_loaded env load config refs d ok st p h1 h2 h3'] at hx
            simp [abortOut] at hx
          | true =>
            rw [processProject_main_loaded env load config refs d ok st p h1 h2 h3'] at hx hy
            refine mainStep_dep_lt_own env load _ refs d ok st ?_ x hx y hy
            cases refs with
            | undef => intro z hz; simp [refsOutOf] at hz
            | defined rl =>
              intro z hz
              exact ((processRefs_bounds env load rl (fillState env st)).2 z hz).2
    | none =>
      cases h3 : config.fileNames with
      | nil =>
        rw [processProject_no_files_inline env load config pOk refs d ok st h1 h3] at hx
        simp [abortOut] at hx
      | cons f fs =>
        have h3' : config.fileNames ≠ [] := by rw [h3]; simp
        cases pOk with
        | false =>
          rw [processProject_no_program_inline env load config refs d ok st h1 h3'] at hx
          simp [abortOut] at hx
        | true =>
          rw [processProject_main_inline env load config refs d ok st h1 h3'] at hx hy
          refine mainStep_dep_lt_own env load _ refs d ok st ?_ x hx y hy
          cases refs with
          | undef => intro z hz; simp [refsOutOf] at hz
          | defined rl =>
            intro z hz
            exact ((processRefs_bounds env load rl (fillState env st)).2 z hz).2

/-- C1 witness: in a run over a parent with one successful reference,
the reference draws identifier 2 and the parent draws identifier 3,
and 2 < 3. -/
theorem claim_c1_witness :
    2 ∈ (processProject exEnv exLoad exParent exSt).depDraws ∧
    3 ∈ (processProject exEnv exLoad exParent exSt).ownDraws ∧
    2 < 3 :=
  ⟨by decide, by decide,
    claim_c1 exEnv exLoad exParent exSt 2 3 (by decide) (by decide)⟩

/-- C8: for a project that itself analyzes successfully, the
`dependsOn` list handed to the visitor (and recorded in the returned
`ProjectInfo`) is exactly the sequence of `ProjectInfo` produced by the
recursive analyses of the declared resolved references, in declared
order, with `undefined` entries and failed analyses omitted — and a
failed reference does not abort the parent. -/
theorem claim_c8 (env : SysEnv) (load : String → ParsedCommandLine)
    (config : ParsedCommandLine) (rl : RefList) (d : Nat) (st : PState)
    (h1 : config.options.project = none)
    (h2 : config.fileNames ≠ []) :
    ∃ pid : Nat,
      (processProject env load (.mk config true (.defined rl) d true) st).info =
        some (.mk pid none
          (((refOutcomes env load rl (fillState env st)).1).reduceOption)) := by
  rw [processProject_main_inline env load config (.defined rl) d true st h1 h2]
  rw [mainStep_eq]
  dsimp only
  have hdep : (refsOutOf env load (.defined rl) (fillState env st)).dependsOn =
      ((refOutcomes env load rl (fillState env st)).1).reduceOption :=
    (refOutcomes_spec env load rl (fillState env st)).1
  rw [hdep]
  refine ⟨(idSeq d (refsOutOf env load (.defined rl) (fillState env st)).st.gen).2.counter, ?_⟩
  simp [lsifVisit, nextId]

/-- C8 witness: a parent whose references are a failing child, an
undefined entry, and a successful child still analyzes successfully,
its `dependsOn` being the successful outcomes in order. -/
theorem claim_c8_witness :
    ∃ pid : Nat,
      (processProject exEnv exLoad
          (.mk ⟨⟨none, []⟩, ["a.ts"], []⟩ true
            (.defined (.consRef exChildBad (.consUndef (.consRef exChild .nil)))) 1 true)
          exSt).info =
        some (.mk pid none
          (((refOutcomes exEnv exLoad
              (.consRef exChildBad (.consUndef (.consRef exChild .nil)))
              (fillState exEnv exSt)).1).reduceOption)) :=
  claim_c8 exEnv exLoad ⟨⟨none, []⟩, ["a.ts"], []⟩
    (.consRef exChildBad (.consUndef (.consRef exChild .nil))) 1 exSt rfl (by decide)

/-- C10: `processProject` mutates the shared options object — with
both roots unset it fills `projectRoot` with the current working
directory and `repositoryRoot` with the version-control top-level
directory (invoking the tool once) and normalizes both to absolute
form; once the roots are set and absolute, every further (nested)
`processProject` call leaves them unchanged and performs no further
version-control invocation; over any call the invocation count grows
by at most one, and only when `repositoryRoot` was still unset. -/
theorem claim_c10 (env : SysEnv) (load : String → ParsedCommandLine)
    (node : ProjNode) (st : PState) (g : Nat)
    (hcwd : isAbsolute env.cwd = true) (hgit : isAbsolute env.gitToplevel = true) :
    fillRoots env ⟨none, none⟩ g = (⟨some env.cwd, some env.gitToplevel⟩, g + 1) ∧
    rootsAbsolute (fillRoots env ⟨none, none⟩ g).1 = true ∧
    (rootsAbsolute st.options = true →
      (processProject env load node st).st.options = st.options ∧
      (processProject env load node st).st.gitCalls = st.gitCalls) ∧
    (processProject env load node st).st.gitCalls ≤ pot st := by
  have hfill : fillRoots env ⟨none, none⟩ g = (⟨some env.cwd, some env.gitToplevel⟩, g + 1) := by
    simp [fillRoots, makeAbsolute, hcwd, hgit]
  refine ⟨hfill, ?_, fun h => processProject_stable env load node st h, ?_⟩
  · rw [hfill]
    simp [rootsAbsolute, hcwd, hgit]
  · exact le_trans (Nat.le_add_right _ _) (processProject_pot env load node st)

/-- C10 witness: at the concrete run the unset roots are filled with
the absolute working directory and git top level (one git call), and a
nested call from an absolute-root state changes neither the options
nor the git-call count, which stays at most one. -/
theorem claim_c10_witness :
    fillRoots exEnv ⟨none, none⟩ 0 = (⟨some exEnv.cwd, some exEnv.gitToplevel⟩, 0 + 1) ∧
    rootsAbsolute (fillRoots exEnv ⟨none, none⟩ 0).1 = true ∧
    (rootsAbsolute exStAbs.options = true →
      (processProject exEnv exLoad exParent exStAbs).st.options = exStAbs.options ∧
      (processProject exEnv exLoad exParent exStAbs).st.gitCalls = exStAbs.gitCalls) ∧
    (processProject exEnv exLoad exParent exStAbs).st.gitCalls ≤ pot exStAbs :=
  claim_c10 exEnv exLoad exParent exStAbs 0 (by decide) (by decide)
